import Mathlib

/-!
# Verification of the boustrophedon coverage planner (`src/coverage.py`)

Shallow embedding of `generate_coverage_path` and its helpers.

Conventions of the embedding:
* Planar coordinates are exact rationals `ℚ` (every IEEE double is a
  rational, so `ℚ` contains all values the program manipulates).
* `_path_length` computes square roots, so path lengths live in `ℝ`.
* The external geometry library (shapely) is modelled as an oracle:
  per sampled angle, an `AngleGeo` record supplies the rotated polygon's
  bounding box, its intersection with a vertical probe line, and the
  back-rotation map.  For axis-aligned rectangles the intersection
  oracle is instantiated concretely (`interRect`), matching the
  set-theoretic intersection semantics of `Polygon.intersection`.
-/

namespace DroneCP

/-- A planar point `(x, y)` in meters. -/
abbrev Point : Type := ℚ × ℚ

/-- A segment as returned by the intersection: `(seg.coords[0], seg.coords[-1])`. -/
abbrev Seg : Type := Point × Point

/-!
## Geometry kernel
-/

/-- Rotation of a point about origin `o` by an angle whose cosine is `c` and
sine is `s` (shapely's `rotate(geom, angle, origin=o)` applied pointwise):
`x' = ox + c*(x-ox) - s*(y-oy)`, `y' = oy + s*(x-ox) + c*(y-oy)`. -/
def rotatePt (c s : ℚ) (o p : Point) : Point :=
  (o.1 + c * (p.1 - o.1) - s * (p.2 - o.2),
   o.2 + s * (p.1 - o.1) + c * (p.2 - o.2))

/-- `_path_length` from `coverage.py`: sum of Euclidean distances between
consecutive points (`(dx*dx + dy*dy) ** 0.5`); `0` for `0` or `1` points. -/
noncomputable def path_length : List Point → ℝ
  | p :: q :: rest =>
      Real.sqrt (((q.1 - p.1) * (q.1 - p.1) + (q.2 - p.2) * (q.2 - p.2) : ℚ) : ℝ)
        + path_length (q :: rest)
  | _ => 0

/-!
## Sweep-line x offsets (`coverage.py` lines 105-109)

The source loop is `x = minx - spacing; while x <= maxx + spacing: xs.append(x); x += spacing`.
`sweepXsAux` embeds it; the guard `0 < s` makes the recursion well-founded
(the source loop does not terminate for `s ≤ 0`, and the embedding returns
`[]` there, which is irrelevant under the planner's precondition `s > 0`).
-/

def sweepXsAux (bound s x : ℚ) : List ℚ :=
  if h : 0 < s ∧ x ≤ bound then x :: sweepXsAux bound s (x + s) else []
termination_by (⌊(bound - x) / s⌋ + 1).toNat
decreasing_by
  obtain ⟨hs, hxb⟩ := h
  have hs' : s ≠ 0 := ne_of_gt hs
  have hfl : ⌊(bound - (x + s)) / s⌋ = ⌊(bound - x) / s⌋ - 1 := by
    have heq : (bound - (x + s)) / s = (bound - x) / s - 1 := by
      field_simp
      ring
    rw [heq]
    exact_mod_cast Int.floor_sub_int ((bound - x) / s) 1
  have hnn : 0 ≤ ⌊(bound - x) / s⌋ :=
    Int.floor_nonneg.mpr (div_nonneg (sub_nonneg.mpr hxb) hs.le)
  rw [hfl]
  omega

/-- The full list of sweep-line x offsets for a bounding box `[minx, maxx]`
and spacing `s`. -/
def sweepXs (minx maxx s : ℚ) : List ℚ :=
  sweepXsAux (maxx + s) s (minx - s)

/-!
## Path stitcher (`coverage.py` lines 113-146)
-/

/-- Orientation of one segment's endpoints, lines 120-128: append the
endpoint with larger y first (`if y0 > y1` branch). -/
def orientSeg (sg : Seg) : List Point :=
  if sg.1.2 > sg.2.2 then [sg.1, sg.2] else [sg.2, sg.1]

/-- `pts_this_strip[k : k + 2]` for even `k`: regroup the flattened point
list into consecutive pairs (line 132). -/
def pairUp : List Point → List (Point × Point)
  | a :: b :: rest => (a, b) :: pairUp rest
  | _ => []

/-- The sort key of line 133: `-((s[0][1] + s[1][1]) / 2.0)`. -/
def segKey (pr : Point × Point) : ℚ := -((pr.1.2 + pr.2.2) / 2)

/-- The (stable, ascending-by-key) order Python's `list.sort` uses on pairs. -/
def segLE (a b : Point × Point) : Prop := segKey a ≤ segKey b

instance : DecidableRel segLE := fun a b =>
  inferInstanceAs (Decidable (segKey a ≤ segKey b))

instance : IsTotal (Point × Point) segLE := ⟨fun a b => le_total _ _⟩

instance : IsTrans (Point × Point) segLE := ⟨fun _ _ _ => le_trans⟩

/-- Lines 130-135 for one strip: orient each segment, regroup into pairs,
stable-sort by the key (descending mean y), and flatten. -/
def stripFlat (segs : List Seg) : List Point :=
  (List.insertionSort segLE (pairUp (segs.flatMap orientSeg))).flatMap
    (fun pr => [pr.1, pr.2])

/-- The strip accumulation loop of lines 111-139: strips are appended only
for lines that produced points, and a strip is reversed when the current
number of accumulated (non-empty) strips is odd. -/
def buildStripsAux (strips : List (List Point)) : List (List Seg) → List (List Point)
  | [] => strips
  | segs :: rest =>
      if segs.flatMap orientSeg = [] then buildStripsAux strips rest
      else
        buildStripsAux
          (strips ++ [if strips.length % 2 = 1 then (stripFlat segs).reverse
                      else stripFlat segs]) rest

def buildStrips (lines : List (List Seg)) : List (List Point) :=
  buildStripsAux [] lines

/-- Lines 142-146: concatenate the strips (skipping empty ones) into the
candidate path in the rotated frame. -/
def candidateOf (lines : List (List Seg)) : List Point :=
  (buildStrips lines).foldl (fun acc st => if st = [] then acc else acc ++ st) []

/-!
## The external geometry oracle for one sampled angle
-/

/-- What shapely supplies for one rotated polygon `rpoly` (lines 101-102,
114-115, 152): its bounds, the segments of `rpoly.intersection(LineString
[(x, ylo), (x, yhi)])` after `_line_segments_from_intersection`, and the
map rotating a point back to the original frame. -/
structure AngleGeo where
  minx : ℚ
  miny : ℚ
  maxx : ℚ
  maxy : ℚ
  inter : ℚ → ℚ → ℚ → List Seg
  rotBack : Point → Point

/-- The sampled angle of loop index `i` (line 98): `180.0 * i / angle_samples`. -/
def angleOf (n i : ℕ) : ℚ := 180 * i / n

/-- Lines 104-146 for one angle: sweep offsets, intersection of each vertical
probe line (extent `[miny - s, maxy + s]`, line 114), stitching. -/
def angleCandidate (s : ℚ) (g : AngleGeo) : List Point :=
  candidateOf ((sweepXs g.minx g.maxx s).map
    (fun x => g.inter x (g.miny - s) (g.maxy + s)))

/-- The candidate of angle index `i`, before back-rotation. -/
def candAt (s : ℚ) (geo : ℚ → AngleGeo) (n i : ℕ) : List Point :=
  angleCandidate s (geo (angleOf n i))

/-- The candidate of angle index `i` rotated back to the original frame
(lines 151-153). -/
def pathAt (s : ℚ) (geo : ℚ → AngleGeo) (n i : ℕ) : List Point :=
  (candAt s geo n i).map (geo (angleOf n i)).rotBack

/-- The score of angle index `i` (line 155). -/
noncomputable def lenAt (s : ℚ) (geo : ℚ → AngleGeo) (n i : ℕ) : ℝ :=
  path_length (pathAt s geo n i)

/-- One iteration of the optimizer loop, lines 97-158: skip an empty
candidate (line 149-150), otherwise rotate back, score, and keep it only
when strictly shorter than the current best (line 156). `none` models
`best_path is None` / `best_len = inf`. -/
noncomputable def loopStep (s : ℚ) (geo : ℚ → AngleGeo) (n : ℕ)
    (best : Option (List Point × ℝ)) (i : ℕ) : Option (List Point × ℝ) :=
  if candAt s geo n i = [] then best
  else
    match best with
    | none => some (pathAt s geo n i, lenAt s geo n i)
    | some b => if lenAt s geo n i < b.2 then some (pathAt s geo n i, lenAt s geo n i)
                else some b

/-- The angle optimizer: fold of `loopStep` over `i = 0 .. n-1` (line 97). -/
noncomputable def planLoop (s : ℚ) (geo : ℚ → AngleGeo) (n : ℕ) :
    Option (List Point × ℝ) :=
  (List.range n).foldl (loopStep s geo n) none

/-!
## Entry point with input validation (`coverage.py` lines 82-91, 160-161)
-/

/-- The two failure kinds of `generate_coverage_path`: the `ValueError`s of
lines 83 and 91 (invalid polygon) and the `RuntimeError` of line 161. -/
inductive PlanError where
  | invalidPolygon : PlanError
  | planningFailed : PlanError
deriving DecidableEq

/-- The facts about the projected input polygon that the validation code
reads from shapely: the vertex count of `polygon_latlon`, `poly.is_valid`,
`poly.is_empty`, and `poly.buffer(0).is_empty`. -/
structure PolyModel where
  nverts : ℕ
  isValid : Bool
  isEmptyValid : Bool
  isEmptyRepaired : Bool

/-- Lines 87-90: when the polygon is invalid it is replaced by its
zero-width buffer, so the emptiness test of line 90 reads the repaired
polygon exactly when the original was invalid. -/
def polyEmpty (p : PolyModel) : Bool :=
  if p.isValid then p.isEmptyValid else p.isEmptyRepaired

/-- `generate_coverage_path`: vertex-count check (line 82), emptiness check
after optional repair (line 90), angle-optimizer loop, and the final
failure when no angle produced a candidate (line 160). -/
noncomputable def generate_coverage_path (p : PolyModel) (s : ℚ)
    (geo : ℚ → AngleGeo) (n : ℕ) : Except PlanError (List Point) :=
  if p.nverts < 3 then .error .invalidPolygon
  else if polyEmpty p then .error .invalidPolygon
  else
    match planLoop s geo n with
    | some b => .ok b.1
    | none => .error .planningFailed

/-!
## Concrete intersection oracle for axis-aligned rectangles

`Polygon.intersection(LineString)` in shapely/GEOS returns the
set-theoretic intersection of the closed polygonal region with the line;
for an axis-aligned rectangle and a vertical probe line this is the
vertical chord below, returned in the probe line's direction (increasing
y).  A degenerate (single-point) intersection is a `Point` geometry, which
`_line_segments_from_intersection` discards (lines 42-43).
-/

structure Rect where
  minx : ℚ
  miny : ℚ
  maxx : ℚ
  maxy : ℚ

/-- Intersection of the closed rectangle with the vertical probe segment
`{x} × [ylo, yhi]`, after `_line_segments_from_intersection`. -/
def interRect (r : Rect) (x ylo yhi : ℚ) : List Seg :=
  if r.minx ≤ x ∧ x ≤ r.maxx then
    if max ylo r.miny < min yhi r.maxy then
      [((x, max ylo r.miny), (x, min yhi r.maxy))]
    else []
  else []

/-- The geometry oracle of a rectangle at sampled angle `0` (rotation by
`-0` and back by `+0` are the identity, exactly, also in IEEE floats). -/
def rectGeo (r : Rect) : AngleGeo :=
  { minx := r.minx, miny := r.miny, maxx := r.maxx, maxy := r.maxy
    inter := interRect r
    rotBack := id }

/-- The 10 × 10 square of the spec's concrete scenario. -/
def sq : Rect := ⟨0, 0, 10, 10⟩

/-!
## Auxiliary definitions used by the characterizations below
-/

/-- The strip produced for the line of non-empty index `k`. -/
def stripAt (k : ℕ) (segs : List Seg) : List Point :=
  if k % 2 = 1 then (stripFlat segs).reverse else stripFlat segs

/-- The strips produced from the `k`-th non-empty line on. -/
def stripsFrom (k : ℕ) : List (List Seg) → List (List Point)
  | [] => []
  | segs :: rest => stripAt k segs :: stripsFrom (k + 1) rest

/-- Invariant of the accumulator after the optimizer has seen angle indices
`0 .. k-1`: either all candidates so far were empty, or the accumulator
holds the candidate of the least index attaining the minimum length. -/
def BestUpTo (s : ℚ) (geo : ℚ → AngleGeo) (n k : ℕ) :
    Option (List Point × ℝ) → Prop
  | none => ∀ i, i < k → candAt s geo n i = []
  | some b => ∃ i, i < k ∧ candAt s geo n i ≠ [] ∧
      b = (pathAt s geo n i, lenAt s geo n i) ∧
      (∀ j, j < k → candAt s geo n j ≠ [] → lenAt s geo n i ≤ lenAt s geo n j) ∧
      (∀ j, j < i → candAt s geo n j ≠ [] → lenAt s geo n i < lenAt s geo n j)

/-- The top-first orientation of one segment, as the pair the sort of
line 133 operates on. -/
def orient2 (sg : Seg) : Point × Point :=
  if sg.1.2 > sg.2.2 then (sg.1, sg.2) else (sg.2, sg.1)

/-- The mean y-coordinate of a segment's endpoints. -/
def meanY (pr : Point × Point) : ℚ := (pr.1.2 + pr.2.2) / 2

/-- A valid, non-empty 4-vertex input. -/
def pOK : PolyModel := ⟨4, true, false, false⟩

/-- A 2-vertex input. -/
def pTwo : PolyModel := ⟨2, true, false, false⟩

/-- A self-intersecting (invalid) 4-vertex input whose zero-width-buffer
repair is non-empty. -/
def pBowtie : PolyModel := ⟨4, false, false, false⟩

/-- A self-intersecting input whose repair is empty. -/
def pCollapsed : PolyModel := ⟨4, false, false, true⟩

/-- An oracle whose rotated polygon is a degenerate vertical unit segment at
`x = 0`: only the probe at `x = 0` intersects it. -/
def vertGeo : AngleGeo :=
  { minx := 0, miny := 0, maxx := 0, maxy := 1
    inter := fun x _ _ => if x = 0 then [((0, 0), (0, 1))] else []
    rotBack := id }

/-- An oracle whose polygon misses every probe line. -/
def geoEmpty : AngleGeo :=
  { minx := 0, miny := 0, maxx := 0, maxy := 0
    inter := fun _ _ _ => []
    rotBack := id }

/-- The per-line segment lists a rectangle produces at spacing `s`
(angle 0). -/
def rectLines (r : Rect) (s : ℚ) : List (List Seg) :=
  (sweepXs r.minx r.maxx s).map (fun x => interRect r x (r.miny - s) (r.maxy + s))

/-- The number of sweep lines that intersect the polygon behind the oracle
`g` (yield at least one segment, i.e. survive the silent drop of lines
whose intersection is empty or degenerate) at spacing `s`. -/
def lineCount (g : AngleGeo) (s : ℚ) : ℕ :=
  (((sweepXs g.minx g.maxx s).map
      (fun x => g.inter x (g.miny - s) (g.maxy + s))).filter
    (fun segs => !segs.isEmpty)).length

/-- The vertical-probe behaviour of a positive-area convex polygon, as
guaranteed by the set-theoretic intersection semantics of
`Polygon.intersection` plus `_line_segments_from_intersection`: a probe
line strictly inside the x-extent of the bounding box always crosses the
interior in exactly one non-degenerate chord; a probe outside misses; a
probe at `x = minx` (resp. `x = maxx`) yields a segment exactly when the
polygon's boundary contains a vertical edge there (the flag `left`, resp.
`right`) and otherwise only a degenerate touching point, which is dropped.
The flags are a property of the polygon alone, and the probe's vertical
extent `[miny - s, maxy + s]` always covers the polygon's full y-range, so
the behaviour is uniform in the spacing `s`. -/
def ConvexProbe (g : AngleGeo) (left right : Bool) : Prop :=
  ∀ s x : ℚ, 0 < s →
    ((g.inter x (g.miny - s) (g.maxy + s)).isEmpty = false ↔
      ((if left then g.minx ≤ x else g.minx < x) ∧
       (if right then x ≤ g.maxx else x < g.maxx)))

/-!
## The sweep-offset loop terminates and is an arithmetic progression
-/

/-- The number of offsets the loop starting at `x` emits. -/
def sweepCount (bound s x : ℚ) : ℕ := (⌊(bound - x) / s⌋ + 1).toNat

lemma sweepXsAux_formula (bound s : ℚ) (hs : 0 < s) :
    ∀ (N : ℕ) (x : ℚ), sweepCount bound s x = N →
      sweepXsAux bound s x = (List.range N).map (fun k : ℕ => x + (k : ℚ) * s) := by
  intro N
  induction N with
  | zero =>
      intro x hN
      rw [sweepXsAux]
      rw [dif_neg]
      · rfl
      · rintro ⟨-, hxb⟩
        have h0 : 0 ≤ ⌊(bound - x) / s⌋ :=
          Int.floor_nonneg.mpr (div_nonneg (sub_nonneg.mpr hxb) hs.le)
        simp only [sweepCount] at hN
        omega
  | succ n ih =>
      intro x hN
      have hxb : x ≤ bound := by
        by_contra hgt
        push_neg at hgt
        have hneg : (bound - x) / s < 0 :=
          div_neg_of_neg_of_pos (sub_neg.mpr hgt) hs
        have : ⌊(bound - x) / s⌋ < 0 := Int.floor_lt.mpr (by simpa using hneg)
        simp only [sweepCount] at hN
        omega
      rw [sweepXsAux, dif_pos ⟨hs, hxb⟩]
      have hstep : sweepCount bound s (x + s) = n := by
        have heq : (bound - (x + s)) / s = (bound - x) / s - 1 := by
          field_simp
          ring
        have hfl : ⌊(bound - (x + s)) / s⌋ = ⌊(bound - x) / s⌋ - 1 := by
          rw [heq]
          exact_mod_cast Int.floor_sub_int ((bound - x) / s) 1
        have h0 : 0 ≤ ⌊(bound - x) / s⌋ :=
          Int.floor_nonneg.mpr (div_nonneg (sub_nonneg.mpr hxb) hs.le)
        simp only [sweepCount] at hN ⊢
        omega
      rw [ih (x + s) hstep, List.range_succ_eq_map]
      simp only [List.map_cons, List.map_map]
      congr 1
      · ring_nf
      · apply List.map_congr_left
        intro k _
        simp only [Function.comp_apply]
        push_cast
        ring

/-- `sweepXs` as a closed arithmetic progression: for positive spacing the
source's `while` loop terminates and emits exactly
`⌊(maxx + s - (minx - s)) / s⌋ + 1` offsets `minx - s, minx, minx + s, …`. -/
lemma sweepXs_formula (minx maxx s : ℚ) (hs : 0 < s) :
    sweepXs minx maxx s =
      (List.range (⌊(maxx + s - (minx - s)) / s⌋ + 1).toNat).map
        (fun k : ℕ => (minx - s) + (k : ℚ) * s) :=
  sweepXsAux_formula (maxx + s) s hs _ (minx - s) rfl

/-!
## Concrete runs on the 10 × 10 square (angle 0)
-/

lemma sweepXs_sq5 : sweepXs 0 10 5 = [-5, 0, 5, 10, 15] := by
  rw [sweepXs_formula 0 10 5 (by norm_num)]
  have h : (⌊((10:ℚ) + 5 - (0 - 5)) / 5⌋ + 1).toNat = 5 := by
    have h4 : ⌊((10:ℚ) + 5 - (0 - 5)) / 5⌋ = 4 := by norm_num
    rw [h4]
    rfl
  rw [h]
  simp [List.range_succ]
  norm_num

lemma sweepXs_sq4 : sweepXs 0 10 4 = [-4, 0, 4, 8, 12] := by
  rw [sweepXs_formula 0 10 4 (by norm_num)]
  have h : (⌊((10:ℚ) + 4 - (0 - 4)) / 4⌋ + 1).toNat = 5 := by
    have h4 : ⌊((10:ℚ) + 4 - (0 - 4)) / 4⌋ = 4 := by
      rw [Int.floor_eq_iff]
      norm_num
    rw [h4]
    rfl
  rw [h]
  simp [List.range_succ]
  norm_num

/-- The candidate path of the square at spacing 5 and angle 0: three sweep
lines carry one chord each (x = 0, 5, 10), the middle one reversed. -/
lemma sqCand5 : angleCandidate 5 (rectGeo sq) =
    [(0, 10), (0, 0), (5, 0), (5, 10), (10, 10), (10, 0)] := by
  simp only [angleCandidate, rectGeo, sq, sweepXs_sq5]
  norm_num [candidateOf, buildStrips, buildStripsAux, stripFlat, pairUp, orientSeg,
            segLE, segKey, interRect, List.insertionSort, List.orderedInsert,
            List.flatMap, max_def, min_def, List.cons_ne_nil]

/-- The candidate path of the square at spacing 4 and angle 0. -/
lemma sqCand4 : angleCandidate 4 (rectGeo sq) =
    [(0, 10), (0, 0), (4, 0), (4, 10), (8, 10), (8, 0)] := by
  simp only [angleCandidate, rectGeo, sq, sweepXs_sq4]
  norm_num [candidateOf, buildStrips, buildStripsAux, stripFlat, pairUp, orientSeg,
            segLE, segKey, interRect, List.insertionSort, List.orderedInsert,
            List.flatMap, max_def, min_def, List.cons_ne_nil]

/-!
## Structure of the strip accumulation loop
-/

/-- A segment always contributes its two endpoints. -/
lemma orientSeg_length (sg : Seg) : (orientSeg sg).length = 2 := by
  unfold orientSeg
  split <;> rfl

/-- A line's flattened point list is empty exactly when the line produced
no segments. -/
lemma flatMap_orientSeg_eq_nil (segs : List Seg) :
    segs.flatMap orientSeg = [] ↔ segs = [] := by
  cases segs with
  | nil => simp
  | cons sg rest =>
      simp only [List.flatMap_cons]
      constructor
      · intro h
        have := congrArg List.length h
        simp [orientSeg_length] at this
      · intro h
        exact absurd h (List.cons_ne_nil _ _)

lemma buildStripsAux_eq (strips : List (List Point)) (lines : List (List Seg)) :
    buildStripsAux strips lines =
      strips ++ stripsFrom strips.length (lines.filter (fun segs => !segs.isEmpty)) := by
  induction lines generalizing strips with
  | nil => simp [buildStripsAux, stripsFrom]
  | cons segs rest ih =>
      by_cases h : segs = []
      · subst h
        simp [buildStripsAux, ih, List.filter]
      · have hne : ¬ segs.flatMap orientSeg = [] := by
          rw [flatMap_orientSeg_eq_nil]
          exact h
        have hfil : (segs :: rest).filter (fun l => !l.isEmpty) =
            segs :: rest.filter (fun l => !l.isEmpty) := by
          simp [List.filter_cons, List.isEmpty_iff, h]
        rw [buildStripsAux, if_neg hne, ih, hfil]
        simp only [List.length_append, List.length_cons, List.length_nil,
          stripsFrom, stripAt, List.append_assoc, List.singleton_append]

/-- `buildStrips` produces exactly one strip per non-empty line, the strip of
non-empty index `k` being the (for odd `k`, reversed) sorted flattening of
that line. -/
lemma buildStrips_eq (lines : List (List Seg)) :
    buildStrips lines = stripsFrom 0 (lines.filter (fun segs => !segs.isEmpty)) := by
  simpa using buildStripsAux_eq [] lines

lemma stripsFrom_length (k : ℕ) (lines : List (List Seg)) :
    (stripsFrom k lines).length = lines.length := by
  induction lines generalizing k with
  | nil => rfl
  | cons segs rest ih => simp [stripsFrom, ih]

lemma stripsFrom_get? (k : ℕ) (lines : List (List Seg)) (j : ℕ) :
    (stripsFrom k lines).get? j = (lines.get? j).map (fun segs => stripAt (k + j) segs) := by
  induction lines generalizing k j with
  | nil => simp [stripsFrom]
  | cons segs rest ih =>
      cases j with
      | zero => simp [stripsFrom]
      | succ j' =>
          simp only [stripsFrom, List.get?_cons_succ, ih (k + 1) j']
          simp only [show k + 1 + j' = k + (j' + 1) from by omega]

/-!
## The optimizer loop keeps the earliest strictly-best candidate
-/

lemma planLoop_invariant (s : ℚ) (geo : ℚ → AngleGeo) (n : ℕ) :
    ∀ k, BestUpTo s geo n k ((List.range k).foldl (loopStep s geo n) none) := by
  intro k
  induction k with
  | zero =>
      simp [BestUpTo]
  | succ k ih =>
      rw [List.range_succ, List.foldl_append, List.foldl_cons, List.foldl_nil]
      set acc := (List.range k).foldl (loopStep s geo n) none with hacc
      clear_value acc
      unfold loopStep
      by_cases hck : candAt s geo n k = []
      · rw [if_pos hck]
        cases acc with
        | none =>
            simp only [BestUpTo] at ih ⊢
            intro i hi
            rcases Nat.lt_succ_iff_lt_or_eq.mp hi with h | h
            · exact ih i h
            · rw [h]; exact hck
        | some b =>
            simp only [BestUpTo] at ih ⊢
            obtain ⟨i, hik, hne, hb, hmin, hstrict⟩ := ih
            exact ⟨i, Nat.lt_succ_of_lt hik, hne, hb,
              fun j hj hjne => by
                rcases Nat.lt_succ_iff_lt_or_eq.mp hj with h | h
                · exact hmin j h hjne
                · rw [h] at hjne; exact absurd hck hjne,
              hstrict⟩
      · rw [if_neg hck]
        cases acc with
        | none =>
            simp only [BestUpTo] at ih ⊢
            refine ⟨k, Nat.lt_succ_self k, hck, rfl, fun j hj hjne => ?_, fun j hj hjne => ?_⟩
            · rcases Nat.lt_succ_iff_lt_or_eq.mp hj with h | h
              · exact absurd (ih j h) hjne
              · rw [h]
            · exact absurd (ih j hj) hjne
        | some b =>
            simp only [BestUpTo] at ih ⊢
            obtain ⟨i, hik, hne, hb, hmin, hstrict⟩ := ih
            by_cases hlt : lenAt s geo n k < b.2
            · rw [if_pos hlt]
              rw [hb] at hlt
              simp only [BestUpTo]
              refine ⟨k, Nat.lt_succ_self k, hck, rfl, fun j hj hjne => ?_, fun j hj hjne => ?_⟩
              · rcases Nat.lt_succ_iff_lt_or_eq.mp hj with h | h
                · exact le_of_lt (lt_of_lt_of_le hlt (hmin j h hjne))
                · rw [h]
              · exact lt_of_lt_of_le hlt (hmin j hj hjne)
            · rw [if_neg hlt]
              rw [hb] at hlt
              simp only [BestUpTo]
              refine ⟨i, Nat.lt_succ_of_lt hik, hne, hb, fun j hj hjne => ?_, hstrict⟩
              rcases Nat.lt_succ_iff_lt_or_eq.mp hj with h | h
              · exact hmin j h hjne
              · rw [h]
                exact not_lt.mp hlt

lemma planLoop_some (s : ℚ) (geo : ℚ → AngleGeo) (n : ℕ) (pts : List Point) (l : ℝ)
    (h : planLoop s geo n = some (pts, l)) :
    ∃ i, i < n ∧ candAt s geo n i ≠ [] ∧
      pts = pathAt s geo n i ∧ l = lenAt s geo n i ∧
      (∀ j, j < n → candAt s geo n j ≠ [] → lenAt s geo n i ≤ lenAt s geo n j) ∧
      (∀ j, j < i → candAt s geo n j ≠ [] → lenAt s geo n i < lenAt s geo n j) := by
  have hinv := planLoop_invariant s geo n n
  rw [show (List.range n).foldl (loopStep s geo n) none = planLoop s geo n from rfl, h] at hinv
  simp only [BestUpTo] at hinv
  obtain ⟨i, hik, hne, hb, hmin, hstrict⟩ := hinv
  have h1 : pts = pathAt s geo n i := congrArg Prod.fst hb
  have h2 : l = lenAt s geo n i := congrArg Prod.snd hb
  exact ⟨i, hik, hne, h1, h2, hmin, hstrict⟩

lemma foldl_loopStep_all_empty (s : ℚ) (geo : ℚ → AngleGeo) (n : ℕ) (l : List ℕ)
    (b : Option (List Point × ℝ)) (h : ∀ i ∈ l, candAt s geo n i = []) :
    l.foldl (loopStep s geo n) b = b := by
  induction l generalizing b with
  | nil => rfl
  | cons a as ih =>
      rw [List.foldl_cons, loopStep.eq_def, if_pos (h a (List.mem_cons_self a as))]
      exact ih b (fun i hi => h i (List.mem_cons_of_mem a hi))

lemma planLoop_none_iff (s : ℚ) (geo : ℚ → AngleGeo) (n : ℕ) :
    planLoop s geo n = none ↔ ∀ i, i < n → candAt s geo n i = [] := by
  constructor
  · intro h
    have hinv := planLoop_invariant s geo n n
    rw [show (List.range n).foldl (loopStep s geo n) none = planLoop s geo n from rfl, h] at hinv
    simp only [BestUpTo] at hinv
    exact hinv
  · intro h
    unfold planLoop
    exact foldl_loopStep_all_empty s geo n (List.range n) none
      (fun i hi => h i (List.mem_range.mp hi))

/-!
## Every candidate has an even number of waypoints
-/

lemma flatMap_pairs_length (l : List (Point × Point)) :
    (l.flatMap (fun pr => [pr.1, pr.2])).length = 2 * l.length := by
  induction l with
  | nil => rfl
  | cons a t ih =>
      simp only [List.flatMap_cons, List.length_append, List.length_cons, ih]
      simp
      omega

lemma stripFlat_length_even (segs : List Seg) : Even (stripFlat segs).length := by
  unfold stripFlat
  rw [flatMap_pairs_length]
  exact even_two_mul _

lemma stripAt_length_even (k : ℕ) (segs : List Seg) : Even (stripAt k segs).length := by
  unfold stripAt
  split
  · rw [List.length_reverse]
    exact stripFlat_length_even segs
  · exact stripFlat_length_even segs

lemma mem_stripsFrom {st : List Point} :
    ∀ {k : ℕ} {lines : List (List Seg)}, st ∈ stripsFrom k lines →
      ∃ m segs, st = stripAt m segs := by
  intro k lines
  induction lines generalizing k with
  | nil => intro h; simp [stripsFrom] at h
  | cons segs rest ih =>
      intro h
      rcases List.mem_cons.mp h with h | h
      · exact ⟨k, segs, h⟩
      · exact ih h

lemma foldl_concat_even (l : List (List Point)) (acc : List Point)
    (hacc : Even acc.length) (h : ∀ st ∈ l, Even st.length) :
    Even ((l.foldl (fun acc st => if st = [] then acc else acc ++ st) acc).length) := by
  induction l generalizing acc with
  | nil => exact hacc
  | cons st rest ih =>
      rw [List.foldl_cons]
      by_cases hst : st = []
      · rw [if_pos hst]
        exact ih acc hacc (fun st' hst' => h st' (List.mem_cons_of_mem _ hst'))
      · rw [if_neg hst]
        refine ih _ ?_ (fun st' hst' => h st' (List.mem_cons_of_mem _ hst'))
        rw [List.length_append]
        exact hacc.add (h st (List.mem_cons_self _ _))

/-- Every candidate path assembled from strips has an even number of points:
each segment contributes exactly its two endpoints. -/
lemma candidateOf_length_even (lines : List (List Seg)) :
    Even (candidateOf lines).length := by
  unfold candidateOf
  apply foldl_concat_even _ _ (by simp)
  intro st hst
  rw [buildStrips_eq] at hst
  obtain ⟨m, segs, rfl⟩ := mem_stripsFrom hst
  exact stripAt_length_even m segs

/-!
## Square-root evaluations used for concrete path lengths
-/

lemma sqrt_hundred : Real.sqrt 100 = 10 := by
  rw [show (100:ℝ) = 10 ^ 2 by norm_num, Real.sqrt_sq (by norm_num : (0:ℝ) ≤ 10)]

lemma sqrt_twentyfive : Real.sqrt 25 = 5 := by
  rw [show (25:ℝ) = 5 ^ 2 by norm_num, Real.sqrt_sq (by norm_num : (0:ℝ) ≤ 5)]

lemma sqrt_sixteen : Real.sqrt 16 = 4 := by
  rw [show (16:ℝ) = 4 ^ 2 by norm_num, Real.sqrt_sq (by norm_num : (0:ℝ) ≤ 4)]

/-- The square's candidate at spacing 5 measures exactly 40 meters. -/
lemma path_length_sq5 :
    path_length [(0, 10), (0, 0), (5, 0), (5, 10), (10, 10), (10, 0)] = 40 := by
  simp only [path_length]
  norm_num [sqrt_hundred, sqrt_twentyfive]

/-- The square's candidate at spacing 4 measures exactly 38 meters. -/
lemma path_length_sq4 :
    path_length [(0, 10), (0, 0), (4, 0), (4, 10), (8, 10), (8, 0)] = 38 := by
  simp only [path_length]
  norm_num [sqrt_hundred, sqrt_sixteen]

/-!
## Concrete polygon models and geometry oracles
-/

lemma angleCandidate_rectGeo (r : Rect) (s : ℚ) :
    angleCandidate s (rectGeo r) = candidateOf (rectLines r s) := rfl

lemma rectLines_sq5 : rectLines sq 5 =
    [[], [((0, 0), (0, 10))], [((5, 0), (5, 10))], [((10, 0), (10, 10))], []] := by
  unfold rectLines
  simp only [sq, sweepXs_sq5]
  norm_num [interRect, max_def, min_def]

lemma rectLines_sq4 : rectLines sq 4 =
    [[], [((0, 0), (0, 10))], [((4, 0), (4, 10))], [((8, 0), (8, 10))], []] := by
  unfold rectLines
  simp only [sq, sweepXs_sq4]
  norm_num [interRect, max_def, min_def]

lemma sqStrips5 : buildStrips (rectLines sq 5) =
    [[(0, 10), (0, 0)], [(5, 0), (5, 10)], [(10, 10), (10, 0)]] := by
  rw [rectLines_sq5]
  norm_num [buildStrips, buildStripsAux, stripFlat, pairUp, orientSeg,
            segLE, segKey, List.insertionSort, List.orderedInsert,
            List.flatMap, List.cons_ne_nil]

/-!
## Evaluating the whole planner on the square at angle 0
-/

/-- Unfolding `generate_coverage_path` after the validation checks pass. -/
lemma generate_valid (p : PolyModel) (s : ℚ) (geo : ℚ → AngleGeo) (n : ℕ)
    (h3 : ¬ p.nverts < 3) (he : polyEmpty p = false) :
    generate_coverage_path p s geo n =
      (match planLoop s geo n with
       | some b => .ok b.1
       | none => .error .planningFailed) := by
  unfold generate_coverage_path
  rw [if_neg h3, if_neg (by rw [he]; exact Bool.false_ne_true)]

/-- A one-angle optimizer run with a non-empty candidate returns it. -/
lemma planLoop_one (s : ℚ) (geo : ℚ → AngleGeo)
    (h : candAt s geo 1 0 ≠ []) :
    planLoop s geo 1 = some (pathAt s geo 1 0, lenAt s geo 1 0) := by
  unfold planLoop
  rw [show List.range 1 = [0] from rfl, List.foldl_cons, List.foldl_nil,
    loopStep.eq_def, if_neg h]

lemma candAt_rect_one (r : Rect) (s : ℚ) (i : ℕ) :
    candAt s (fun _ => rectGeo r) 1 i = candidateOf (rectLines r s) := rfl

lemma pathAt_rect_one (r : Rect) (s : ℚ) (i : ℕ) :
    pathAt s (fun _ => rectGeo r) 1 i = candidateOf (rectLines r s) := by
  unfold pathAt
  rw [candAt_rect_one]
  exact List.map_id _

lemma generate_sq5 :
    generate_coverage_path pOK 5 (fun _ => rectGeo sq) 1 =
      .ok [(0, 10), (0, 0), (5, 0), (5, 10), (10, 10), (10, 0)] := by
  have hc : candidateOf (rectLines sq 5) =
      [(0, 10), (0, 0), (5, 0), (5, 10), (10, 10), (10, 0)] := by
    rw [← angleCandidate_rectGeo]
    exact sqCand5
  rw [generate_valid pOK 5 _ 1 (by norm_num [pOK]) (by norm_num [pOK, polyEmpty])]
  rw [planLoop_one 5 _ (by rw [candAt_rect_one, hc]; exact List.cons_ne_nil _ _)]
  rw [show pathAt 5 (fun _ => rectGeo sq) 1 0 =
    candidateOf (rectLines sq 5) from pathAt_rect_one sq 5 0, hc]

lemma generate_sq4 :
    generate_coverage_path pOK 4 (fun _ => rectGeo sq) 1 =
      .ok [(0, 10), (0, 0), (4, 0), (4, 10), (8, 10), (8, 0)] := by
  have hc : candidateOf (rectLines sq 4) =
      [(0, 10), (0, 0), (4, 0), (4, 10), (8, 10), (8, 0)] := by
    rw [← angleCandidate_rectGeo]
    exact sqCand4
  rw [generate_valid pOK 4 _ 1 (by norm_num [pOK]) (by norm_num [pOK, polyEmpty])]
  rw [planLoop_one 4 _ (by rw [candAt_rect_one, hc]; exact List.cons_ne_nil _ _)]
  rw [show pathAt 4 (fun _ => rectGeo sq) 1 0 =
    candidateOf (rectLines sq 4) from pathAt_rect_one sq 4 0, hc]

/-!
## Evaluating the degenerate oracles
-/

lemma candidateOf_all_nil (lines : List (List Seg)) (h : ∀ l ∈ lines, l = []) :
    candidateOf lines = [] := by
  unfold candidateOf
  rw [buildStrips_eq]
  have hfil : lines.filter (fun segs => !segs.isEmpty) = [] := by
    rw [List.filter_eq_nil_iff]
    intro a ha
    rw [h a ha]
    simp
  rw [hfil]
  rfl

lemma candAt_geoEmpty (s : ℚ) (n i : ℕ) :
    candAt s (fun _ => geoEmpty) n i = [] := by
  unfold candAt angleCandidate
  apply candidateOf_all_nil
  intro l hl
  rcases List.mem_map.mp hl with ⟨x, _, rfl⟩
  rfl

lemma sweepXs_vert : sweepXs 0 0 1 = [-1, 0, 1] := by
  rw [sweepXs_formula 0 0 1 (by norm_num)]
  have h : (⌊((0:ℚ) + 1 - (0 - 1)) / 1⌋ + 1).toNat = 3 := by
    have h2 : ⌊((0:ℚ) + 1 - (0 - 1)) / 1⌋ = 2 := by norm_num
    rw [h2]
    rfl
  rw [h]
  simp [List.range_succ]
  norm_num

lemma vertCand : angleCandidate 1 vertGeo = [(0, 1), (0, 0)] := by
  unfold angleCandidate vertGeo
  simp only [sweepXs_vert]
  norm_num [candidateOf, buildStrips, buildStripsAux, stripFlat, pairUp, orientSeg,
            segLE, segKey, List.insertionSort, List.orderedInsert,
            List.flatMap, List.cons_ne_nil]

lemma candAt_vert (i : ℕ) : candAt 1 (fun _ => vertGeo) 2 i = [(0, 1), (0, 0)] :=
  vertCand

lemma pathAt_vert (i : ℕ) : pathAt 1 (fun _ => vertGeo) 2 i = [(0, 1), (0, 0)] := by
  unfold pathAt
  rw [candAt_vert]
  rfl

lemma lenAt_vert (i : ℕ) :
    lenAt 1 (fun _ => vertGeo) 2 i = path_length [(0, 1), (0, 0)] := by
  unfold lenAt
  rw [pathAt_vert]

/-- A two-angle run in which both angles produce candidates of identical
length: the optimizer keeps the first (index 0) candidate. -/
lemma planLoop_vert :
    planLoop 1 (fun _ => vertGeo) 2 =
      some ([(0, 1), (0, 0)], path_length [(0, 1), (0, 0)]) := by
  unfold planLoop
  rw [show List.range 2 = [0, 1] from rfl, List.foldl_cons, List.foldl_cons,
    List.foldl_nil]
  rw [loopStep.eq_def, if_neg (by rw [candAt_vert]; exact List.cons_ne_nil _ _)]
  rw [loopStep.eq_def, if_neg (by rw [candAt_vert]; exact List.cons_ne_nil _ _)]
  simp only [lenAt_vert, pathAt_vert]
  rw [if_neg (lt_irrefl _)]

/-!
## The stitcher's per-line behaviour
-/

lemma pairUp_flatMap_orientSeg (segs : List Seg) :
    pairUp (segs.flatMap orientSeg) = segs.map orient2 := by
  induction segs with
  | nil => rfl
  | cons sg rest ih =>
      by_cases h : sg.1.2 > sg.2.2
      · rw [List.flatMap_cons, List.map_cons,
          show orientSeg sg = [sg.1, sg.2] from by simp only [orientSeg, if_pos h],
          show orient2 sg = (sg.1, sg.2) from by simp only [orient2, if_pos h]]
        exact congrArg (List.cons _) ih
      · rw [List.flatMap_cons, List.map_cons,
          show orientSeg sg = [sg.2, sg.1] from by simp only [orientSeg, if_neg h],
          show orient2 sg = (sg.2, sg.1) from by simp only [orient2, if_neg h]]
        exact congrArg (List.cons _) ih

/-- What one sweep line's flattening is: a permutation of the top-first
oriented segments, sorted by descending mean y, flattened in pairs. -/
lemma stripFlat_char (segs : List Seg) :
    ∃ pairs : List (Point × Point),
      pairs.Perm (segs.map orient2) ∧
      pairs.Sorted (fun a b => meanY b ≤ meanY a) ∧
      (∀ pr ∈ pairs, pr.2.2 ≤ pr.1.2) ∧
      stripFlat segs = pairs.flatMap (fun pr => [pr.1, pr.2]) := by
  refine ⟨List.insertionSort segLE (pairUp (segs.flatMap orientSeg)), ?_, ?_, ?_, rfl⟩
  · rw [pairUp_flatMap_orientSeg]
    have hperm := List.perm_insertionSort segLE (pairUp (segs.flatMap orientSeg))
    rw [pairUp_flatMap_orientSeg] at hperm
    exact hperm
  · have hs := List.sorted_insertionSort segLE (pairUp (segs.flatMap orientSeg))
    refine hs.imp ?_
    intro a b hab
    unfold segLE segKey at hab
    unfold meanY
    linarith
  · intro pr hpr
    have hmem : pr ∈ pairUp (segs.flatMap orientSeg) :=
      (List.mem_insertionSort segLE).mp hpr
    rw [pairUp_flatMap_orientSeg] at hmem
    obtain ⟨sg, _, rfl⟩ := List.mem_map.mp hmem
    unfold orient2
    split
    · exact le_of_lt (by assumption)
    · exact le_of_not_lt (by assumption)

/-!
## Counting the sweep lines that hit a rectangle
-/

lemma interRect_isEmpty_iff (r : Rect) (s x : ℚ) (hs : 0 < s) (hy : r.miny < r.maxy) :
    ((interRect r x (r.miny - s) (r.maxy + s)).isEmpty = false) ↔
      (r.minx ≤ x ∧ x ≤ r.maxx) := by
  unfold interRect
  by_cases h : r.minx ≤ x ∧ x ≤ r.maxx
  · rw [if_pos h]
    have hlo : max (r.miny - s) r.miny = r.miny := max_eq_right (by linarith)
    have hhi : min (r.maxy + s) r.maxy = r.maxy := min_eq_right (by linarith)
    rw [hlo, hhi, if_pos hy]
    simpa using h
  · rw [if_neg h]
    simpa using h

lemma countP_range_window (a M : ℕ) :
    ∀ N : ℕ, (List.range N).countP (fun k => decide (a ≤ k ∧ k ≤ M)) =
      min N (M + 1) - a := by
  intro N
  induction N with
  | zero => simp
  | succ N ih =>
      rw [List.range_succ, List.countP_append, ih]
      by_cases h : a ≤ N ∧ N ≤ M
      · have hp : (List.countP (fun k => decide (a ≤ k ∧ k ≤ M)) [N]) = 1 := by
          simp [List.countP_cons, h]
        rw [hp]
        omega
      · have hp : (List.countP (fun k => decide (a ≤ k ∧ k ≤ M)) [N]) = 0 := by
          simp [List.countP_cons, h]
        rw [hp]
        omega

/-- The closed count of sweep lines hitting a convex polygon at spacing
`s`: `⌊width / s⌋ + 1` or `⌈width / s⌉` lines reach the closed x-extent
(depending on whether the right boundary probe yields a segment), minus
one more when the left boundary probe is degenerate. -/
lemma lineCount_formula (g : AngleGeo) (left right : Bool)
    (hconv : ConvexProbe g left right) (hw : g.minx < g.maxx)
    (s : ℚ) (hs : 0 < s) :
    lineCount g s =
      (if right then (⌊(g.maxx - g.minx) / s⌋ + 1).toNat
       else ⌈(g.maxx - g.minx) / s⌉.toNat) + 1 - (if left then 1 else 2) := by
  have hW : (0:ℚ) < g.maxx - g.minx := by linarith
  have hWs : (0:ℚ) < (g.maxx - g.minx) / s := div_pos hW hs
  have hfl0 : 0 ≤ ⌊(g.maxx - g.minx) / s⌋ := Int.floor_nonneg.mpr hWs.le
  have hcl1 : 1 ≤ ⌈(g.maxx - g.minx) / s⌉ := Int.ceil_pos.mpr hWs
  have hclfl : ⌈(g.maxx - g.minx) / s⌉ ≤ ⌊(g.maxx - g.minx) / s⌋ + 1 :=
    Int.ceil_le_floor_add_one _
  set M : ℕ := (⌊(g.maxx - g.minx) / s⌋ + 1).toNat with hM
  have hMint : (M : ℤ) = ⌊(g.maxx - g.minx) / s⌋ + 1 := by
    rw [hM]
    omega
  set Mnat : ℕ := (if right then (⌊(g.maxx - g.minx) / s⌋ + 1).toNat
                   else ⌈(g.maxx - g.minx) / s⌉.toNat) with hMnat
  set anat : ℕ := (if left then 1 else 2) with hanat
  have hMnatM : Mnat ≤ M := by
    rw [hMnat]
    split
    · omega
    · omega
  unfold lineCount
  rw [sweepXs_formula _ _ _ hs]
  rw [List.filter_map, List.length_map, ← List.countP_eq_length_filter]
  have hN : (⌊(g.maxx + s - (g.minx - s)) / s⌋ + 1).toNat = M + 2 := by
    have heq : (g.maxx + s - (g.minx - s)) / s = (g.maxx - g.minx) / s + 2 := by
      field_simp
      ring
    have : ⌊(g.maxx + s - (g.minx - s)) / s⌋ = ⌊(g.maxx - g.minx) / s⌋ + 2 := by
      rw [heq]
      exact_mod_cast Int.floor_add_int ((g.maxx - g.minx) / s) 2
    rw [this]
    omega
  rw [hN, List.countP_map]
  have hpred : ∀ k ∈ List.range (M + 2),
      (((fun segs : List Seg => !segs.isEmpty) ∘
          (fun x : ℚ => g.inter x (g.miny - s) (g.maxy + s))) ∘
        (fun k : ℕ => (g.minx - s) + (k : ℚ) * s)) k = true ↔
      (fun k : ℕ => decide (anat ≤ k ∧ k ≤ Mnat)) k = true := by
    intro k _
    simp only [Function.comp_apply, Bool.not_eq_true', decide_eq_true_eq]
    have hok1 : g.minx ≤ (g.minx - s) + (k : ℚ) * s ↔ 1 ≤ k := by
      constructor
      · intro h1
        by_contra hk
        push_neg at hk
        interval_cases k
        simp at h1
        linarith
      · intro hk
        have hk1 : (1:ℚ) ≤ (k:ℚ) := by exact_mod_cast hk
        nlinarith
    have hok2 : g.minx < (g.minx - s) + (k : ℚ) * s ↔ 2 ≤ k := by
      constructor
      · intro h1
        by_contra hk
        push_neg at hk
        interval_cases k
        · norm_num at h1
          linarith
        · norm_num at h1
      · intro hk
        have hk2 : (2:ℚ) ≤ (k:ℚ) := by exact_mod_cast hk
        nlinarith
    have hokMle : (g.minx - s) + (k : ℚ) * s ≤ g.maxx ↔ k ≤ M := by
      constructor
      · intro h2
        have hdiv : (k : ℚ) ≤ (g.maxx - g.minx) / s + 1 := by
          rw [div_add' _ _ _ (ne_of_gt hs), le_div_iff₀ hs]
          linarith
        have hk_int : (k : ℤ) ≤ ⌊(g.maxx - g.minx) / s + 1⌋ := by
          apply Int.le_floor.mpr
          push_cast
          exact hdiv
        rw [show ⌊(g.maxx - g.minx) / s + 1⌋ = ⌊(g.maxx - g.minx) / s⌋ + 1 from
          by exact_mod_cast Int.floor_add_int ((g.maxx - g.minx) / s) 1] at hk_int
        omega
      · intro hk
        have hk_int : (k : ℤ) ≤ ⌊(g.maxx - g.minx) / s⌋ + 1 := by omega
        have hkq : (k : ℚ) ≤ (g.maxx - g.minx) / s + 1 := by
          have := Int.floor_le ((g.maxx - g.minx) / s)
          calc (k : ℚ) ≤ ((⌊(g.maxx - g.minx) / s⌋ : ℤ) : ℚ) + 1 := by
                exact_mod_cast hk_int
          _ ≤ (g.maxx - g.minx) / s + 1 := by linarith
        have hmul : (k : ℚ) * s ≤ ((g.maxx - g.minx) / s + 1) * s :=
          mul_le_mul_of_nonneg_right hkq hs.le
        rw [add_mul, div_mul_cancel₀ _ (ne_of_gt hs)] at hmul
        linarith
    have hokMlt : (g.minx - s) + (k : ℚ) * s < g.maxx ↔
        k ≤ ⌈(g.maxx - g.minx) / s⌉.toNat := by
      constructor
      · intro h2
        have hkq : (k : ℚ) < (g.maxx - g.minx) / s + 1 := by
          rw [div_add' _ _ _ (ne_of_gt hs), lt_div_iff₀ hs]
          linarith
        have hk_int : (k : ℤ) < ⌈(g.maxx - g.minx) / s + 1⌉ := Int.lt_ceil.mpr (by push_cast; exact hkq)
        rw [show ⌈(g.maxx - g.minx) / s + 1⌉ = ⌈(g.maxx - g.minx) / s⌉ + 1 from
          by exact_mod_cast Int.ceil_add_int ((g.maxx - g.minx) / s) 1] at hk_int
        omega
      · intro hk
        have hk_int : (k : ℤ) < ⌈(g.maxx - g.minx) / s⌉ + 1 := by omega
        have hkq : (k : ℚ) < (g.maxx - g.minx) / s + 1 := by
          have h1 : (k : ℤ) < ⌈(g.maxx - g.minx) / s + 1⌉ := by
            rw [show ⌈(g.maxx - g.minx) / s + 1⌉ = ⌈(g.maxx - g.minx) / s⌉ + 1 from
              by exact_mod_cast Int.ceil_add_int ((g.maxx - g.minx) / s) 1]
            exact hk_int
          have := Int.lt_ceil.mp h1
          push_cast at this
          exact this
        have hmul : (k : ℚ) * s < ((g.maxx - g.minx) / s + 1) * s :=
          mul_lt_mul_of_pos_right hkq hs
        rw [add_mul, div_mul_cancel₀ _ (ne_of_gt hs)] at hmul
        linarith
    have hleft : (if left then g.minx ≤ (g.minx - s) + (k : ℚ) * s
                  else g.minx < (g.minx - s) + (k : ℚ) * s) ↔ anat ≤ k := by
      rw [hanat]
      cases left
      · simpa using hok2
      · simpa using hok1
    have hright : (if right then (g.minx - s) + (k : ℚ) * s ≤ g.maxx
                   else (g.minx - s) + (k : ℚ) * s < g.maxx) ↔ k ≤ Mnat := by
      rw [hMnat]
      rw [hM] at hokMle
      cases right
      · simpa using hokMlt
      · simpa using hokMle
    exact (hconv s ((g.minx - s) + (k : ℚ) * s) hs).trans (and_congr hleft hright)
  rw [List.countP_congr hpred, countP_range_window]
  omega

/-- A rectangle with positive height realizes the convex vertical-probe
behaviour with both boundary probes yielding segments (its left and right
edges are vertical). -/
lemma rectGeo_convexProbe (r : Rect) (hy : r.miny < r.maxy) :
    ConvexProbe (rectGeo r) true true := by
  intro s x hs
  simpa using interRect_isEmpty_iff r s x hs hy

/-!
## Claims
-/

/-- **C3**: for every point set `S`, rotation parameters `(c, s)` on the
unit circle (the cosine and sine of any angle θ), and pivot `O`, rotating
`S` by `-θ` about `O` and then by `+θ` about the same `O` returns `S` —
exactly, in the real-arithmetic model, hence within floating-point
tolerance in the program; in particular the optimizer's forward rotation
of the polygon about its centroid is inverted by the back-rotation of the
candidate path by `+angle` about that same centroid. -/
theorem C3_rotation_round_trip (c s : ℚ) (h : c ^ 2 + s ^ 2 = 1)
    (o : Point) (S : List Point) :
    (S.map (rotatePt c (-s) o)).map (rotatePt c s o) = S := by
  rw [List.map_map]
  have hpt : ∀ p : Point, (rotatePt c s o ∘ rotatePt c (-s) o) p = p := by
    intro p
    obtain ⟨px, py⟩ := p
    simp only [Function.comp_apply, rotatePt, Prod.mk.injEq]
    constructor
    · linear_combination (px - o.1) * h
    · linear_combination (py - o.2) * h
  calc S.map (rotatePt c s o ∘ rotatePt c (-s) o)
      = S.map id := List.map_congr_left (fun p _ => hpt p)
    _ = S := List.map_id S

theorem C3_witness :
    ((3 : ℚ)/5) ^ 2 + ((4 : ℚ)/5) ^ 2 = 1 ∧
    (([((1 : ℚ), (2 : ℚ)), (0, 0), (7, -3)].map (rotatePt (3/5) (-(4/5)) (2, 1))).map
      (rotatePt (3/5) (4/5) (2, 1))) = [(1, 2), (0, 0), (7, -3)] :=
  ⟨by norm_num,
   C3_rotation_round_trip (3/5) (4/5) (by norm_num) (2, 1) [(1, 2), (0, 0), (7, -3)]⟩

/-- **C10**: under the precondition `spacing_m > 0` (and any finite bounding
box), the source's sweep-offset `while` loop terminates and produces the
finite arithmetic progression starting at `minx - s` with step `s`, with
exactly `⌊(maxx + s - (minx - s)) / s⌋ + 1` offsets. -/
theorem C10_sweep_offsets_terminate (minx maxx s : ℚ) (hs : 0 < s) :
    sweepXs minx maxx s =
      (List.range (⌊(maxx + s - (minx - s)) / s⌋ + 1).toNat).map
        (fun k : ℕ => (minx - s) + (k : ℚ) * s) :=
  sweepXs_formula minx maxx s hs

theorem C10_witness :
    (0 : ℚ) < 5 ∧
    sweepXs 0 10 5 =
      (List.range (⌊((10 : ℚ) + 5 - (0 - 5)) / 5⌋ + 1).toNat).map
        (fun k : ℕ => ((0 : ℚ) - 5) + (k : ℚ) * 5) :=
  ⟨by norm_num, C10_sweep_offsets_terminate 0 10 5 (by norm_num)⟩

/-- **C5**: for every input with fewer than 3 vertices, and for every input
whose polygon is empty after any repair, `generate_coverage_path` fails
with the invalid-polygon error — uniformly in the spacing, the geometry
oracle and the angle count, so before any sweep-line work is performed; in
particular a 2-vertex input always fails this way. -/
theorem C5_invalid_polygon (p : PolyModel) (s : ℚ) (geo : ℚ → AngleGeo) (n : ℕ) :
    (p.nverts < 3 → generate_coverage_path p s geo n = .error .invalidPolygon) ∧
    (polyEmpty p = true → generate_coverage_path p s geo n = .error .invalidPolygon) ∧
    (p.nverts = 2 → generate_coverage_path p s geo n = .error .invalidPolygon) := by
  refine ⟨?_, ?_, ?_⟩
  · intro h
    unfold generate_coverage_path
    rw [if_pos h]
  · intro h
    unfold generate_coverage_path
    by_cases h3 : p.nverts < 3
    · rw [if_pos h3]
    · rw [if_neg h3, if_pos h]
  · intro h
    unfold generate_coverage_path
    rw [if_pos (by omega)]

theorem C5_witness :
    pTwo.nverts < 3 ∧
    generate_coverage_path pTwo 1 (fun _ => rectGeo sq) 36 = .error .invalidPolygon ∧
    polyEmpty pCollapsed = true ∧
    generate_coverage_path pCollapsed 1 (fun _ => rectGeo sq) 36 = .error .invalidPolygon :=
  ⟨by norm_num [pTwo],
   (C5_invalid_polygon pTwo 1 (fun _ => rectGeo sq) 36).1 (by norm_num [pTwo]),
   by norm_num [pCollapsed, polyEmpty],
   (C5_invalid_polygon pCollapsed 1 (fun _ => rectGeo sq) 36).2.1
     (by norm_num [pCollapsed, polyEmpty])⟩

/-- **C8**: a ≥3-vertex input whose projected polygon is invalid
(self-intersecting) is not rejected: the planner repairs it (zero-width
buffer) and proceeds with the optimizer loop, failing with the
invalid-polygon error only when the repaired polygon is empty. -/
theorem C8_repair_proceeds (p : PolyModel) (s : ℚ) (geo : ℚ → AngleGeo) (n : ℕ)
    (h3 : ¬ p.nverts < 3) (hv : p.isValid = false) :
    (p.isEmptyRepaired = false →
      generate_coverage_path p s geo n ≠ .error .invalidPolygon ∧
      generate_coverage_path p s geo n =
        (match planLoop s geo n with
         | some b => .ok b.1
         | none => .error .planningFailed)) ∧
    (p.isEmptyRepaired = true →
      generate_coverage_path p s geo n = .error .invalidPolygon) := by
  constructor
  · intro hre
    have he : polyEmpty p = false := by
      unfold polyEmpty
      rw [hv]
      simpa using hre
    have hgen := generate_valid p s geo n h3 he
    refine ⟨?_, hgen⟩
    rw [hgen]
    cases planLoop s geo n with
    | some b => simp
    | none => simp
  · intro hre
    unfold generate_coverage_path
    rw [if_neg h3, if_pos (by unfold polyEmpty; rw [hv]; simpa using hre)]

theorem C8_witness :
    (¬ pBowtie.nverts < 3) ∧ pBowtie.isValid = false ∧ pBowtie.isEmptyRepaired = false ∧
    generate_coverage_path pBowtie 5 (fun _ => rectGeo sq) 1 ≠ .error .invalidPolygon :=
  ⟨by norm_num [pBowtie], rfl, rfl,
   ((C8_repair_proceeds pBowtie 5 (fun _ => rectGeo sq) 1
      (by norm_num [pBowtie]) rfl).1 rfl).1⟩

/-- **C4**: once the input passes validation, `generate_coverage_path`
fails with the planning-failed error exactly when every one of the
`angle_samples` sampled angles produced an empty candidate path (so the
error is decided only by the whole sweep over all angles), and whenever any
error is returned no path is returned. -/
theorem C4_planning_failed (p : PolyModel) (s : ℚ) (geo : ℚ → AngleGeo) (n : ℕ)
    (h3 : ¬ p.nverts < 3) (he : polyEmpty p = false) :
    (generate_coverage_path p s geo n = .error .planningFailed ↔
      ∀ i, i < n → candAt s geo n i = []) ∧
    (∀ e path, generate_coverage_path p s geo n = .error e →
      generate_coverage_path p s geo n ≠ .ok path) := by
  have hgen := generate_valid p s geo n h3 he
  constructor
  · rw [hgen]
    cases hpl : planLoop s geo n with
    | none =>
        exact iff_of_true rfl ((planLoop_none_iff s geo n).mp hpl)
    | some b =>
        refine iff_of_false (fun hcontra => Except.noConfusion hcontra) (fun hall => ?_)
        rw [(planLoop_none_iff s geo n).mpr hall] at hpl
        exact Option.noConfusion hpl
  · intro e path h1 h2
    rw [h1] at h2
    exact Except.noConfusion h2

theorem C4_witness :
    (¬ pOK.nverts < 3) ∧ polyEmpty pOK = false ∧
    generate_coverage_path pOK 1 (fun _ => geoEmpty) 2 = .error .planningFailed :=
  ⟨by norm_num [pOK], rfl,
   ((C4_planning_failed pOK 1 (fun _ => geoEmpty) 2 (by norm_num [pOK]) rfl).1).mpr
     (fun i _ => candAt_geoEmpty 1 2 i)⟩

/-- **C9**: every path successfully returned by `generate_coverage_path`
has an even number of waypoints, and at least 2: every segment contributes
exactly its two endpoints and the back-rotation is a pointwise map, which
preserves the count. -/
theorem C9_even_waypoints (p : PolyModel) (s : ℚ) (geo : ℚ → AngleGeo) (n : ℕ)
    (path : List Point) (h : generate_coverage_path p s geo n = .ok path) :
    Even path.length ∧ 2 ≤ path.length := by
  unfold generate_coverage_path at h
  by_cases h3 : p.nverts < 3
  · rw [if_pos h3] at h
    exact Except.noConfusion h
  rw [if_neg h3] at h
  by_cases he : polyEmpty p = true
  · rw [if_pos he] at h
    exact Except.noConfusion h
  rw [if_neg he] at h
  cases hpl : planLoop s geo n with
  | none =>
      rw [hpl] at h
      exact Except.noConfusion h
  | some b =>
      rw [hpl] at h
      have hb : b.1 = path := by
        injection h
      obtain ⟨i, _, hne, hpts, -, -, -⟩ :=
        planLoop_some s geo n b.1 b.2 (by rw [hpl])
      have heven : Even (candAt s geo n i).length := candidateOf_length_even _
      have hlenmap : (pathAt s geo n i).length = (candAt s geo n i).length :=
        List.length_map _ _
      have heq : path.length = (candAt s geo n i).length := by
        rw [← hb, hpts, hlenmap]
      constructor
      · rw [heq]
        exact heven
      · have hne0 : (candAt s geo n i).length ≠ 0 :=
          fun h0 => hne (List.length_eq_zero.mp h0)
        rw [heq]
        rcases heven with ⟨m, hm⟩
        omega

theorem C9_witness :
    generate_coverage_path pOK 5 (fun _ => rectGeo sq) 1 =
      .ok [(0, 10), (0, 0), (5, 0), (5, 10), (10, 10), (10, 0)] ∧
    Even ([((0 : ℚ), (10 : ℚ)), (0, 0), (5, 0), (5, 10), (10, 10), (10, 0)] : List Point).length ∧
    2 ≤ ([((0 : ℚ), (10 : ℚ)), (0, 0), (5, 0), (5, 10), (10, 10), (10, 0)] : List Point).length :=
  ⟨generate_sq5,
   (C9_even_waypoints pOK 5 (fun _ => rectGeo sq) 1 _ generate_sq5).1,
   (C9_even_waypoints pOK 5 (fun _ => rectGeo sq) 1 _ generate_sq5).2⟩

/-- **C1**: the angle optimizer iterates exactly `angle_samples` evenly
spaced angles over `[0, 180)` (angle `i` is `180 * i / angle_samples`,
non-negative, below 180, at constant spacing `180 / angle_samples`), and a
candidate replaces the current best only when strictly shorter, so the
returned best is the candidate of minimal length with the least angle
index: on exact ties the earlier (lower-index) angle wins. -/
theorem C1_angle_optimizer (s : ℚ) (geo : ℚ → AngleGeo) (n : ℕ) (hn : 0 < n) :
    (∀ i, i < n → angleOf n i = 180 * (i : ℚ) / n ∧
      0 ≤ angleOf n i ∧ angleOf n i < 180 ∧
      angleOf n (i + 1) - angleOf n i = 180 / n) ∧
    (∀ pts l, planLoop s geo n = some (pts, l) →
      ∃ i, i < n ∧ candAt s geo n i ≠ [] ∧
        pts = pathAt s geo n i ∧ l = lenAt s geo n i ∧
        (∀ j, j < n → candAt s geo n j ≠ [] → lenAt s geo n i ≤ lenAt s geo n j) ∧
        (∀ j, j < i → candAt s geo n j ≠ [] → lenAt s geo n i < lenAt s geo n j)) := by
  constructor
  · intro i hi
    have hn' : (0:ℚ) < (n:ℚ) := by exact_mod_cast hn
    refine ⟨rfl, ?_, ?_, ?_⟩
    · unfold angleOf
      positivity
    · unfold angleOf
      rw [div_lt_iff₀ hn']
      have hi' : (i:ℚ) < (n:ℚ) := by exact_mod_cast hi
      nlinarith
    · unfold angleOf
      push_cast
      field_simp
      ring
  · intro pts l h
    exact planLoop_some s geo n pts l h

theorem C1_witness :
    (0 < 2) ∧
    (∃ i, i < 2 ∧ candAt 1 (fun _ => vertGeo) 2 i ≠ [] ∧
      ([((0:ℚ), (1:ℚ)), (0, 0)] : List Point) = pathAt 1 (fun _ => vertGeo) 2 i ∧
      path_length [((0:ℚ), (1:ℚ)), (0, 0)] = lenAt 1 (fun _ => vertGeo) 2 i ∧
      (∀ j, j < 2 → candAt 1 (fun _ => vertGeo) 2 j ≠ [] →
        lenAt 1 (fun _ => vertGeo) 2 i ≤ lenAt 1 (fun _ => vertGeo) 2 j) ∧
      (∀ j, j < i → candAt 1 (fun _ => vertGeo) 2 j ≠ [] →
        lenAt 1 (fun _ => vertGeo) 2 i < lenAt 1 (fun _ => vertGeo) 2 j)) :=
  ⟨by norm_num,
   (C1_angle_optimizer 1 (fun _ => vertGeo) 2 (by norm_num)).2
     [((0:ℚ), (1:ℚ)), (0, 0)] (path_length [((0:ℚ), (1:ℚ)), (0, 0)]) planLoop_vert⟩

/-- **C2**: the stitcher emits one strip per sweep line that yielded at
least one segment; the strip of non-empty index `j` is (a flattening of)
the line's segments sorted by the mean y-coordinate of their endpoints in
descending order, each segment top (larger-y) endpoint first, and the
flattened list is reversed exactly when `j` — the index among non-empty
lines, not among all generated lines — is odd. -/
theorem C2_stitcher (lines : List (List Seg)) :
    (buildStrips lines).length = (lines.filter (fun segs => !segs.isEmpty)).length ∧
    (∀ j strip, (buildStrips lines).get? j = some strip →
      ∃ segs, (lines.filter (fun segs => !segs.isEmpty)).get? j = some segs ∧
        ∃ pairs : List (Point × Point),
          pairs.Perm (segs.map orient2) ∧
          pairs.Sorted (fun a b => meanY b ≤ meanY a) ∧
          (∀ pr ∈ pairs, pr.2.2 ≤ pr.1.2) ∧
          strip = (if j % 2 = 1 then (pairs.flatMap (fun pr => [pr.1, pr.2])).reverse
                   else pairs.flatMap (fun pr => [pr.1, pr.2]))) := by
  constructor
  · rw [buildStrips_eq, stripsFrom_length]
  · intro j strip hj
    rw [buildStrips_eq, stripsFrom_get? 0] at hj
    cases hf : (lines.filter (fun segs => !segs.isEmpty)).get? j with
    | none =>
        rw [hf] at hj
        exact Option.noConfusion hj
    | some segs =>
        rw [hf] at hj
        have hstrip : stripAt (0 + j) segs = strip := by
          have := hj
          simp only [Option.map_some'] at this
          exact Option.some.inj this
        obtain ⟨pairs, hperm, hsort, htop, hflat⟩ := stripFlat_char segs
        refine ⟨segs, rfl, pairs, hperm, hsort, htop, ?_⟩
        rw [← hstrip]
        unfold stripAt
        rw [hflat]
        simp only [Nat.zero_add]

lemma stripsPairExample :
    (buildStrips [[(((0:ℚ), (0:ℚ)), ((0:ℚ), (2:ℚ)))],
                  [(((1:ℚ), (3:ℚ)), ((1:ℚ), (1:ℚ)))]]).get? 1 =
      some [((1:ℚ), (1:ℚ)), (1, 3)] := by
  norm_num [buildStrips, buildStripsAux, stripFlat, pairUp, orientSeg,
            segLE, segKey, List.insertionSort, List.orderedInsert,
            List.flatMap, List.cons_ne_nil]

theorem C2_witness :
    ∃ segs, (([[(((0:ℚ), (0:ℚ)), ((0:ℚ), (2:ℚ)))],
               [(((1:ℚ), (3:ℚ)), ((1:ℚ), (1:ℚ)))]] : List (List Seg)).filter
        (fun segs => !segs.isEmpty)).get? 1 = some segs ∧
      ∃ pairs : List (Point × Point),
        pairs.Perm (segs.map orient2) ∧
        pairs.Sorted (fun a b => meanY b ≤ meanY a) ∧
        (∀ pr ∈ pairs, pr.2.2 ≤ pr.1.2) ∧
        ([((1:ℚ), (1:ℚ)), (1, 3)] : List Point) =
          (if 1 % 2 = 1 then (pairs.flatMap (fun pr => [pr.1, pr.2])).reverse
           else pairs.flatMap (fun pr => [pr.1, pr.2])) :=
  (C2_stitcher _).2 1 [((1:ℚ), (1:ℚ)), (1, 3)] stripsPairExample

/-- **C6 (counterexample)**: with the 10 × 10 square, `spacing_m = 5` and a
single sampled angle (angle 0), the planner's sweep produces THREE
intersecting sweep lines (x = 0, 5, 10 — the two boundary lines also
intersect), not two, and the returned path measures exactly 40, not ≈ 25:
the claim's counts are false on the code. -/
theorem C6_counterexample :
    (buildStrips (rectLines sq 5)).length = 3 ∧
    (buildStrips (rectLines sq 5)).length ≠ 2 ∧
    generate_coverage_path pOK 5 (fun _ => rectGeo sq) 1 =
      .ok [(0, 10), (0, 0), (5, 0), (5, 10), (10, 10), (10, 0)] ∧
    path_length [(0, 10), (0, 0), (5, 0), (5, 10), (10, 10), (10, 0)] = 40 ∧
    (25 : ℝ) < 40 :=
  ⟨by rw [sqStrips5]; rfl, by rw [sqStrips5]; simp, generate_sq5, path_length_sq5,
   by norm_num⟩

/-- **C6 (amended)**: the square scenario deterministically yields a path
built from exactly 3 sweep lines, each contributing exactly one segment
(two waypoints), with total path length exactly 40. -/
theorem C6_square_scenario :
    generate_coverage_path pOK 5 (fun _ => rectGeo sq) 1 =
      .ok [(0, 10), (0, 0), (5, 0), (5, 10), (10, 10), (10, 0)] ∧
    (buildStrips (rectLines sq 5)).length = 3 ∧
    (∀ strip ∈ buildStrips (rectLines sq 5), strip.length = 2) ∧
    path_length [(0, 10), (0, 0), (5, 0), (5, 10), (10, 10), (10, 0)] = 40 := by
  refine ⟨generate_sq5, by rw [sqStrips5]; rfl, ?_, path_length_sq5⟩
  rw [sqStrips5]
  intro strip hstrip
  fin_cases hstrip <;> rfl

/-- **C7 (amended)**: for a fixed convex polygon — any geometry oracle
with the convex vertical-probe behaviour `ConvexProbe` and a positive
bounding-box width — decreasing `spacing_m` never decreases the number of
sweep lines that intersect the polygon (the count is `⌊width / s⌋ + 1` or
`⌈width / s⌉` minus a fixed boundary correction, antitone in `s`); the
total path length, however, is NOT monotone — see the counterexample. -/
theorem C7_line_count_monotone (g : AngleGeo) (left right : Bool)
    (hconv : ConvexProbe g left right) (hw : g.minx < g.maxx)
    (s s' : ℚ) (hs' : 0 < s') (hss : s' ≤ s) :
    lineCount g s ≤ lineCount g s' := by
  have hs : 0 < s := lt_of_lt_of_le hs' hss
  rw [lineCount_formula g left right hconv hw s hs,
      lineCount_formula g left right hconv hw s' hs']
  have hW : (0:ℚ) ≤ g.maxx - g.minx := by linarith
  have hdiv : (g.maxx - g.minx) / s ≤ (g.maxx - g.minx) / s' := by
    gcongr
  have hfl := Int.floor_mono hdiv
  have hcl := Int.ceil_mono hdiv
  cases right
  · simp only [Bool.false_eq_true, if_false]
    omega
  · simp only [if_true]
    omega

theorem C7_witness :
    ConvexProbe (rectGeo sq) true true ∧
    (rectGeo sq).minx < (rectGeo sq).maxx ∧
    (0 : ℚ) < 4 ∧ (4 : ℚ) ≤ 5 ∧
    lineCount (rectGeo sq) 5 ≤ lineCount (rectGeo sq) 4 :=
  ⟨rectGeo_convexProbe sq (by norm_num [sq]),
   by norm_num [rectGeo, sq], by norm_num, by norm_num,
   C7_line_count_monotone (rectGeo sq) true true
     (rectGeo_convexProbe sq (by norm_num [sq]))
     (by norm_num [rectGeo, sq]) 5 4 (by norm_num) (by norm_num)⟩

/-- **C7 (counterexample)**: decreasing the spacing from 5 to 4 on the
10 × 10 square strictly DECREASES the returned path length (40 → 38), so
"path length non-decreasing as spacing decreases" is false on the code. -/
theorem C7_counterexample :
    (0 : ℚ) < 4 ∧ (4 : ℚ) < 5 ∧
    generate_coverage_path pOK 4 (fun _ => rectGeo sq) 1 =
      .ok [(0, 10), (0, 0), (4, 0), (4, 10), (8, 10), (8, 0)] ∧
    generate_coverage_path pOK 5 (fun _ => rectGeo sq) 1 =
      .ok [(0, 10), (0, 0), (5, 0), (5, 10), (10, 10), (10, 0)] ∧
    path_length [(0, 10), (0, 0), (4, 0), (4, 10), (8, 10), (8, 0)] = 38 ∧
    path_length [(0, 10), (0, 0), (5, 0), (5, 10), (10, 10), (10, 0)] = 40 ∧
    path_length [(0, 10), (0, 0), (4, 0), (4, 10), (8, 10), (8, 0)] <
      path_length [(0, 10), (0, 0), (5, 0), (5, 10), (10, 10), (10, 0)] :=
  ⟨by norm_num, by norm_num, generate_sq4, generate_sq5,
   path_length_sq4, path_length_sq5,
   by rw [path_length_sq4, path_length_sq5]; norm_num⟩

end DroneCP
